import Mathlib

set_option autoImplicit false

namespace Plan2ics

/-! Shallow embedding of the ScheduleConverter pipeline of
src/Release/Ver1/Plan2ics.py.

The HTML input is abstracted at the BeautifulSoup call boundary: a soup is
the table found in it, if any; a table is the list of its rows; a row the
list of its cells' extracted text, since the parser only ever consumes the
text of a cell. Wall-clock times are naive minutes since midnight: the
Europe-Berlin localization adds the same UTC offset to every instant of one
school day (DST transitions fall on Sundays, school days are Monday-Friday),
so within-day differences and alarm offsets are unaffected. -/

/-- Whitespace as stripped by the Python strip method. -/
def isPySpace (c : Char) : Bool :=
  c = ' ' || c = '\t' || c = '\n' || c = '\r' || c = '\x0b' || c = '\x0c'

/-- Word character of the regex: ASCII alphanumerics, underscore, and
non-ASCII letters (approximated as every code point above 127, which covers
the German month letters that occur). -/
def isPyWord (c : Char) : Bool :=
  c.isAlphanum || c = '_' || 128 ≤ c.toNat

/-- The strip method: drop leading and trailing whitespace. -/
def pyStrip (s : String) : String :=
  (((s.data.dropWhile isPySpace).reverse.dropWhile isPySpace).reverse).asString

/-- The lower method, ASCII range (sufficient for the month tokens that
occur in the fixed month table). -/
def pyLower (c : Char) : Char := c.toLower

/-- Helper of splitLines: the accumulator holds the current line reversed. -/
def splitLinesGo : List Char → List Char → List String
  | [], acc => [acc.reverse.asString]
  | c :: rest, acc =>
    if c = '\n' then acc.reverse.asString :: splitLinesGo rest []
    else splitLinesGo rest (c :: acc)

/-- The split method on a newline separator: every maximal newline-free
segment, including empty ones at the ends. -/
def splitLines (s : String) : List String := splitLinesGo s.data []

/-- The backslash-s-star backslash-w-plus tail of the date regex: skip
whitespace, then require at least one word character; the second capture
group is the maximal word-character run. -/
def matchAfterDot (day : Nat) (rest : List Char) : Option (Nat × List Char) :=
  let rest2 := rest.dropWhile isPySpace
  let w := rest2.takeWhile isPyWord
  if w.isEmpty then none else some (day, w)

/-- Anchored match of the date regex of parse_schedule (one or two digits,
a dot, optional whitespace, a word): the parsed day number and the word
token, or none when the pattern does not match. -/
def matchDateText : List Char → Option (Nat × List Char)
  | [] => none
  | c1 :: rest1 =>
    if c1.isDigit then
      match rest1 with
      | [] => none
      | c2 :: rest2 =>
        if c2.isDigit then
          match rest2 with
          | '.' :: rest3 => matchAfterDot (10 * (c1.toNat - 48) + (c2.toNat - 48)) rest3
          | _ => none
        else if c2 = '.' then matchAfterDot (c1.toNat - 48) rest2
        else none
    else none

/-- German month-abbreviation table of parse_schedule (lines 188-191). -/
def month_map : List (String × Nat) :=
  [("jan", 1), ("feb", 2), ("mär", 3), ("apr", 4), ("mai", 5), ("jun", 6),
   ("jul", 7), ("aug", 8), ("sep", 9), ("okt", 10), ("nov", 11), ("dez", 12)]

/-- First-match association-list lookup, the dict lookup of the program
(all dicts the program builds have distinct keys). -/
def dictGet {α β : Type} [DecidableEq α] (k : α) : List (α × β) → Option β
  | [] => none
  | p :: t => if p.1 = k then some p.2 else dictGet k t

/-- Left-biased choice on options, used to state lookup laws of dict
updates. -/
def optOr {β : Type} : Option β → Option β → Option β
  | some v, _ => some v
  | none, b => b

structure Date where
  year : Nat
  month : Nat
  day : Nat
deriving DecidableEq

def isLeap (y : Nat) : Bool := y % 4 = 0 && (y % 100 ≠ 0 || y % 400 = 0)

def daysInMonth (y m : Nat) : Nat :=
  if m = 2 then (if isLeap y then 29 else 28)
  else if m = 4 || m = 6 || m = 9 || m = 11 then 30
  else 31

/-- Validity check of the datetime.date constructor (the year bound aside,
which the parser cannot violate: it only produces years 2025 and 2026). -/
def isValidDate (y m d : Nat) : Bool :=
  1 ≤ m && m ≤ 12 && 1 ≤ d && d ≤ daysInMonth y m

def daysBeforeMonth (y m : Nat) : Nat :=
  [0, 31, 59, 90, 120, 151, 181, 212, 243, 273, 304, 334].getD (m - 1) 0
    + (if 2 < m && isLeap y then 1 else 0)

/-- The toordinal method of date: day number in the proleptic Gregorian
calendar, day 1 being January 1 of year 1 (a Monday). -/
def toordinal (d : Date) : Nat :=
  365 * (d.year - 1) + (d.year - 1) / 4 - (d.year - 1) / 100 + (d.year - 1) / 400
    + daysBeforeMonth d.year d.month + d.day

/-- The weekday method of date: 0 = Monday through 6 = Sunday. -/
def weekdayOf (d : Date) : Nat := (toordinal d - 1) % 7

/-- Monday of a date's week, as an ordinal: the date minus its weekday in
days (display_weeks line 231). -/
def mondayOrd (o : Nat) : Nat := o - (o - 1) % 7

structure DayData where
  day : String
  subjects : List (Nat × String)
deriving DecidableEq

abbrev ScheduleTable := List (Date × DayData)

/-- Dict assignment: overwrite the value in place when the key exists,
append otherwise (line 215). -/
def dictInsert (m : ScheduleTable) (k : Date) (v : DayData) : ScheduleTable :=
  if m.any (fun p => p.1 = k) then
    m.map (fun p => if p.1 = k then (k, v) else p)
  else m ++ [(k, v)]

/-- Subject labels excluded from export (line 46). -/
def ignore_subjects : List String := ["#NV", "Frei", "Betrieb", "Feiertag", "", " "]

/-- A soup abstracted at the parser's use: the table if one exists, each row
being the extracted text of its cells. -/
abbrev Soup := Option (List (List String))

/-- The data-row filter (lines 162-168): at least 12 cells, a non-empty
first cell, and the first cell matching the date pattern. -/
def isDataRow (cells : List String) : Bool :=
  12 ≤ cells.length && pyStrip (cells.headD "") ≠ "" &&
    (matchDateText (pyStrip (cells.headD "")).data).isSome

/-- Month number from the regex's word group: lowercased, first three
characters, looked up in the month table with default 1 (lines 185-193). -/
def monthNumOf (word : List Char) : Nat :=
  (dictGet ((word.map pyLower).take 3).asString month_map).getD 1

/-- Academic-year rule (line 196): months from August on belong to 2025,
the rest to 2026. -/
def yearOf (monthNum : Nat) : Nat := if 8 ≤ monthNum then 2025 else 2026

/-- Lines 180-201: match the date regex on the first cell's text, resolve
month and year, validate the calendar date; none when the row is skipped. -/
def parseRowDate (date_text : String) : Option Date :=
  match matchDateText date_text.data with
  | none => none
  | some (day_num, word) =>
    let month_num := monthNumOf word
    let year := yearOf month_num
    if isValidDate year month_num day_num then some ⟨year, month_num, day_num⟩
    else none

/-- Lines 203-212: subjects from columns 2-11 (periods 1-10); the first
non-empty stripped line of the cell text, kept only when not ignored. -/
def extractSubjects (cells : List String) : List (Nat × String) :=
  (List.range' 2 10).filterMap (fun i =>
    match cells[i]? with
    | none => none
    | some cell =>
      let subject_text := pyStrip cell
      let subject_lines := ((splitLines subject_text).map pyStrip).filter (fun l => l ≠ "")
      match subject_lines.head? with
      | none => none
      | some s => if s ∈ ignore_subjects then none else some (i - 1, s))

/-- Lines 171-218: fold one data row into the schedule dict; days with no
surviving subject are not added. -/
def parseRow (state : ScheduleTable) (cells : List String) : ScheduleTable :=
  if cells.length < 12 then state
  else
    let date_text := pyStrip (cells.headD "")
    let day_text := pyStrip ((cells[1]?).getD "")
    match parseRowDate date_text with
    | none => state
    | some date_obj =>
      let day_schedule := extractSubjects cells
      if day_schedule.isEmpty then state
      else dictInsert state date_obj ⟨day_text, day_schedule⟩

/-- parse_schedule (lines 153-218): fail when the soup has no table, else
fold every data row into the existing schedule dict, which is not cleared
first. -/
def parse_schedule (soup : Soup) (schedule_data : ScheduleTable) :
    Except String ScheduleTable :=
  match soup with
  | none => Except.error "No table found in HTML file"
  | some rows => Except.ok ((rows.filter isDataRow).foldl parseRow schedule_data)

/-- Time slots for Monday-Thursday (lines 28-35). -/
def weekday_times : List (Nat × (String × String)) :=
  [(1, ("08:00", "09:30")), (3, ("09:45", "11:15")), (5, ("11:25", "12:10")),
   (6, ("12:55", "14:25")), (8, ("14:35", "15:20")), (9, ("15:30", "17:00"))]

/-- Time slots for Friday (lines 38-43); period 7 carries the source comment
"ILIAS-Lernauftrag - skip this" yet is present in the table. -/
def friday_times : List (Nat × (String × String)) :=
  [(1, ("08:00", "09:30")), (3, ("09:45", "11:15")), (5, ("11:30", "13:00")),
   (7, ("13:00", "14:30"))]

/-- strptime with the hour-colon-minute format, as minutes since midnight. -/
def strptimeHM (s : String) : Nat :=
  match s.data with
  | [h1, h2, _, m1, m2] =>
    ((h1.toNat - 48) * 10 + (h2.toNat - 48)) * 60 + ((m1.toNat - 48) * 10 + (m2.toNat - 48))
  | _ => 0

structure ReminderConfig where
  before_first : Bool
  end_previous : Bool
deriving DecidableEq

structure Alarm where
  action : String
  description : String
  trigger : Int
deriving DecidableEq

structure CalendarEvent where
  summary : String
  evDate : Date
  dtstart : Nat
  dtend : Nat
  description : String
  alarms : List Alarm
deriving DecidableEq

/-- Line 309: the Friday table when the date's weekday is Friday, the
Monday-Thursday table otherwise. -/
def timeScheduleFor (date_obj : Date) : List (Nat × (String × String)) :=
  if weekdayOf date_obj = 4 then friday_times else weekday_times

/-- Lines 352-358: the alarm 15 minutes before start, attached only when
the before-first reminder is on and this period is the day's first. -/
def firstAlarmOf (cfg : ReminderConfig) (first_period : Option Nat)
    (ps : Nat × String) : List Alarm :=
  if cfg.before_first = true ∧ first_period = some ps.1 then
    [Alarm.mk "DISPLAY" ("First lesson starting soon: " ++ ps.2) (-15)]
  else []

/-- Lines 361-379: the end-of-previous-lesson alarm, attached only when
the reminder is on, a previous period exists in the map, and that period
has a table entry; its trigger is minus the minute gap from the previous
period's end to this period's start. -/
def prevAlarmOf (cfg : ReminderConfig) (time_schedule : List (Nat × (String × String)))
    (previous_lessons : List (Nat × Nat)) (start_minutes : Nat)
    (ps : Nat × String) : List Alarm :=
  if cfg.end_previous = true then
    match dictGet ps.1 previous_lessons with
    | none => []
    | some previous_period =>
      match dictGet previous_period time_schedule with
      | none => []
      | some prev_times =>
        let minutes_diff : Int := (start_minutes : Int) - (strptimeHM prev_times.2 : Int)
        [Alarm.mk "DISPLAY" ("Next lesson preparation: " ++ ps.2) (-minutes_diff)]
  else []

/-- Lines 321-385, one lesson of the inner loop of generate_ics: skip
ignored subjects and periods without a table entry, otherwise build the
event, with the first-lesson alarm and the end-of-previous-lesson alarm as
configured. -/
def lessonEvent (date_obj : Date) (time_schedule : List (Nat × (String × String)))
    (first_period : Option Nat) (previous_lessons : List (Nat × Nat))
    (cfg : ReminderConfig) (ps : Nat × String) : List CalendarEvent :=
  if ps.2 ∈ ignore_subjects then []
  else
    match dictGet ps.1 time_schedule with
    | none => []
    | some times =>
      let start_minutes := strptimeHM times.1
      let end_minutes := strptimeHM times.2
      [CalendarEvent.mk ps.2 date_obj start_minutes end_minutes
        ("Berufsschule - Period " ++ toString ps.1)
        (firstAlarmOf cfg first_period ps ++
          prevAlarmOf cfg time_schedule previous_lessons start_minutes ps)]

/-- Line 312: the day's periods in sorted order. -/
def sortedPeriodsOf (day_data : DayData) : List Nat :=
  List.insertionSort (fun a b => a ≤ b) (day_data.subjects.map Prod.fst)

/-- The per-day body of generate_ics (lines 303-385): choose the Friday or
weekday table, find the day's first period and every period's predecessor in
sorted order (lines 313-319), and build one event per period that has a
table entry, with the configured alarms attached. -/
def buildDayEvents (date_obj : Date) (day_data : DayData) (cfg : ReminderConfig) :
    List CalendarEvent :=
  day_data.subjects.flatMap
    (lessonEvent date_obj (timeScheduleFor date_obj) (sortedPeriodsOf day_data).head?
      ((sortedPeriodsOf day_data).tail.zip (sortedPeriodsOf day_data)) cfg)

/-- generate_ics (lines 275-400) up to serialization: guard the empty
schedule and the empty week selection, then build the events of every
selected week's dates; failure means no file is written. -/
def generate_ics (schedule_data : ScheduleTable) (selected_weeks : List Nat)
    (cfg : ReminderConfig) : Except String (List CalendarEvent) :=
  if schedule_data.isEmpty then Except.error "No schedule data loaded!"
  else if selected_weeks.isEmpty then Except.error "No weeks selected!"
  else
    Except.ok (selected_weeks.flatMap (fun monday =>
      let week_dates := (schedule_data.map Prod.fst).filter
        (fun d => monday ≤ toordinal d && toordinal d < monday + 7)
      week_dates.flatMap (fun d =>
        match dictGet d schedule_data with
        | none => []
        | some day_data => buildDayEvents d day_data cfg)))

/-- Append a date to its week bucket, creating the bucket when absent
(display_weeks lines 228-234). -/
def addToWeek (weeks : List (Nat × List Date)) (m : Nat) (d : Date) :
    List (Nat × List Date) :=
  if weeks.any (fun g => g.1 = m) then
    weeks.map (fun g => if g.1 = m then (g.1, g.2 ++ [d]) else g)
  else weeks ++ [(m, [d])]

/-- The display_weeks grouping: the schedule's dates in sorted order, each
keyed by the Monday of its week. -/
def groupByMonday (dates : List Date) : List (Nat × List Date) :=
  (List.insertionSort (fun a b => toordinal a ≤ toordinal b) dates).foldl
    (fun acc d => addToWeek acc (mondayOrd (toordinal d)) d) []

/-! Sanity checks of the embedding on concrete values. -/

example : pyStrip "  02. Sep " = "02. Sep" := by decide
example : matchDateText "02. Sep".data = some (2, ['S', 'e', 'p']) := by decide
example : matchDateText "123. Sep".data = none := by decide
example : monthNumOf ['S', 'e', 'p'] = 9 := by decide
example : weekdayOf ⟨2025, 9, 1⟩ = 0 := by decide
example : weekdayOf ⟨2025, 9, 2⟩ = 1 := by decide
example : weekdayOf ⟨2025, 9, 5⟩ = 4 := by decide
example : strptimeHM "09:30" = 570 := by decide
example : parseRowDate "02. Sep" = some ⟨2025, 9, 2⟩ := by decide

/-! Dictionary lemmas: lookup against update and against the parse fold. -/

theorem optOr_none_right {β : Type} (a : Option β) : optOr a none = a := by
  cases a <;> rfl

theorem optOr_assoc {β : Type} (a b c : Option β) :
    optOr (optOr a b) c = optOr a (optOr b c) := by
  cases a <;> rfl

theorem dictGet_eq_none_of_any_eq_false {α β : Type} [DecidableEq α] {k : α}
    {m : List (α × β)} (h : m.any (fun p => p.1 = k) = false) : dictGet k m = none := by
  induction m with
  | nil => rfl
  | cons p t ih =>
    simp only [List.any_cons, Bool.or_eq_false_iff, decide_eq_false_iff_not] at h
    simp [dictGet, h.1, ih h.2]

theorem map_overwrite_eq_self {α β : Type} [DecidableEq α] {k : α} (v : β)
    {m : List (α × β)} (h : m.any (fun p => p.1 = k) = false) :
    m.map (fun p => if p.1 = k then (k, v) else p) = m := by
  induction m with
  | nil => rfl
  | cons p t ih =>
    simp only [List.any_cons, Bool.or_eq_false_iff, decide_eq_false_iff_not] at h
    simp [h.1, ih h.2]

theorem dictGet_dictInsert (m : ScheduleTable) (k : Date) (v : DayData) (d : Date)
    (hnd : (m.map Prod.fst).Nodup) :
    dictGet d (dictInsert m k v) = if d = k then some v else dictGet d m := by
  induction m with
  | nil =>
    by_cases h : d = k
    · subst h; simp [dictInsert, dictGet]
    · simp [dictInsert, dictGet, h, Ne.symm h]
  | cons p t ih =>
    simp only [List.map_cons, List.nodup_cons] at hnd
    by_cases hpk : p.1 = k
    · have hany : (p :: t).any (fun q => q.1 = k) = true := by
        simp [List.any_cons, hpk]
      have htany : t.any (fun q => q.1 = k) = false := by
        rw [Bool.eq_false_iff]
        intro hc
        rcases List.any_eq_true.mp hc with ⟨q, hq, hqk⟩
        simp only [decide_eq_true_eq] at hqk
        refine hnd.1 ?_
        rw [hpk, ← hqk]
        exact List.mem_map_of_mem Prod.fst hq
      rw [dictInsert, if_pos hany]
      simp only [List.map_cons, if_pos hpk, map_overwrite_eq_self v htany]
      by_cases hdk : d = k
      · simp [dictGet, hdk, hpk]
      · have hpd : ¬ p.1 = d := fun hc => hdk ((hc ▸ hpk).symm ▸ rfl)
        simp [dictGet, hdk, Ne.symm hdk, hpd]
    · have ihx := ih hnd.2
      by_cases htany : t.any (fun q => q.1 = k)
      · have hany : (p :: t).any (fun q => q.1 = k) = true := by
          simp [List.any_cons, htany]
        rw [dictInsert, if_pos hany]
        rw [dictInsert, if_pos htany] at ihx
        simp only [List.map_cons, if_neg hpk]
        by_cases hpd : p.1 = d
        · have hdk : ¬ d = k := fun hc => hpk (hpd.symm ▸ hc)
          simp [dictGet, hpd, hdk]
        · simp [dictGet, hpd, ihx]
      · have htanyf : t.any (fun q => q.1 = k) = false := Bool.eq_false_iff.mpr htany
        have hany : (p :: t).any (fun q => q.1 = k) = false := by
          rw [List.any_cons, Bool.or_eq_false_iff]
          exact ⟨decide_eq_false hpk, htanyf⟩
        rw [dictInsert, if_neg (by simp [hany])]
        rw [dictInsert, if_neg (by simp [htanyf])] at ihx
        simp only [List.cons_append]
        by_cases hpd : p.1 = d
        · have hdk : ¬ d = k := fun hc => hpk (hpd.symm ▸ hc)
          simp [dictGet, hpd, hdk]
        · simp [dictGet, hpd, ihx]

theorem dictInsert_map_fst (m : ScheduleTable) (k : Date) (v : DayData) :
    (dictInsert m k v).map Prod.fst =
      if m.any (fun p => p.1 = k) then m.map Prod.fst else m.map Prod.fst ++ [k] := by
  by_cases h : m.any (fun p => p.1 = k)
  · rw [dictInsert, if_pos h, if_pos h, List.map_map]
    apply List.map_congr_left
    intro p _
    by_cases hpk : p.1 = k <;> simp [hpk]
  · rw [dictInsert, if_neg h, if_neg h, List.map_append]
    rfl

theorem dictInsert_keys_nodup (m : ScheduleTable) (k : Date) (v : DayData)
    (hnd : (m.map Prod.fst).Nodup) : ((dictInsert m k v).map Prod.fst).Nodup := by
  rw [dictInsert_map_fst]
  by_cases h : m.any (fun p => p.1 = k)
  · simpa [h] using hnd
  · rw [if_neg (by simp [h])]
    rw [List.nodup_append]
    refine ⟨hnd, List.nodup_singleton k, ?_⟩
    intro a ha hk
    rcases List.mem_singleton.mp hk with rfl
    rcases List.mem_map.mp ha with ⟨p, hp, hpk⟩
    have : m.any (fun q => q.1 = a) = true :=
      List.any_eq_true.mpr ⟨p, hp, by simp [hpk]⟩
    simp [this] at h

theorem mem_dictInsert {m : ScheduleTable} {k : Date} {v : DayData} {p : Date × DayData}
    (h : p ∈ dictInsert m k v) : p = (k, v) ∨ p ∈ m := by
  by_cases hany : m.any (fun q => q.1 = k)
  · rw [dictInsert, if_pos hany] at h
    rcases List.mem_map.mp h with ⟨q, hq, hfq⟩
    by_cases hqk : q.1 = k
    · left; rw [← hfq]; simp [hqk]
    · right; rw [← hfq]; simpa [hqk] using hq
  · rw [dictInsert, if_neg (by simp [hany])] at h
    rcases List.mem_append.mp h with h | h
    · exact Or.inr h
    · exact Or.inl (List.mem_singleton.mp h)

theorem dictGet_mem {α β : Type} [DecidableEq α] {k : α} {v : β} {m : List (α × β)}
    (h : dictGet k m = some v) : (k, v) ∈ m := by
  induction m with
  | nil => exact absurd h (by simp [dictGet])
  | cons p t ih =>
    rw [dictGet] at h
    by_cases hpk : p.1 = k
    · rw [if_pos hpk] at h
      simp only [Option.some.injEq] at h
      have hp : p = (k, v) := by
        cases p
        simp only [Prod.mk.injEq]
        exact ⟨hpk, h⟩
      exact hp ▸ List.mem_cons_self p t
    · rw [if_neg hpk] at h
      exact List.mem_cons_of_mem _ (ih h)

/-! Shape of one parsed row: it either leaves the dict unchanged or performs
one dict insert whose payload does not depend on the prior state. -/

theorem parseRow_shape (cells : List String) :
    (∀ st, parseRow st cells = st) ∨
    (∃ k txt, extractSubjects cells ≠ [] ∧
      ∀ st, parseRow st cells = dictInsert st k ⟨txt, extractSubjects cells⟩) := by
  by_cases hlen : cells.length < 12
  · exact Or.inl (fun st => by simp [parseRow, hlen])
  · cases hpd : parseRowDate (pyStrip ((cells.head?).getD "")) with
    | none => exact Or.inl (fun st => by simp [parseRow, hlen, hpd])
    | some date_obj =>
      by_cases hempty : extractSubjects cells = []
      · exact Or.inl (fun st => by simp [parseRow, hlen, hpd, hempty])
      · exact Or.inr ⟨date_obj, pyStrip ((cells[1]?).getD ""), hempty,
          fun st => by simp [parseRow, hlen, hpd, hempty]⟩

theorem parseRow_keys_nodup (st : ScheduleTable) (cells : List String)
    (h : (st.map Prod.fst).Nodup) : ((parseRow st cells).map Prod.fst).Nodup := by
  rcases parseRow_shape cells with hs | ⟨k, txt, _, hs⟩
  · rw [hs]; exact h
  · rw [hs]; exact dictInsert_keys_nodup st k _ h

theorem foldl_parseRow_keys_nodup (rows : List (List String)) :
    ∀ st : ScheduleTable, (st.map Prod.fst).Nodup →
      ((rows.foldl parseRow st).map Prod.fst).Nodup := by
  induction rows with
  | nil => exact fun st h => h
  | cons r rs ih => exact fun st h => ih (parseRow st r) (parseRow_keys_nodup st r h)

theorem dictGet_parseRow (st : ScheduleTable) (cells : List String) (d : Date)
    (h : (st.map Prod.fst).Nodup) :
    dictGet d (parseRow st cells) = optOr (dictGet d (parseRow [] cells)) (dictGet d st) := by
  rcases parseRow_shape cells with hs | ⟨k, txt, _, hs⟩
  · rw [hs, hs]; rfl
  · rw [hs st, hs []]
    rw [dictGet_dictInsert _ _ _ _ h, dictGet_dictInsert _ _ _ _ (by simp)]
    by_cases hdk : d = k <;> simp [hdk, dictGet, optOr]

theorem dictGet_foldl_parseRow (rows : List (List String)) :
    ∀ (st : ScheduleTable), (st.map Prod.fst).Nodup → ∀ d : Date,
      dictGet d (rows.foldl parseRow st) =
        optOr (dictGet d (rows.foldl parseRow [])) (dictGet d st) := by
  induction rows with
  | nil => intro st _ d; rfl
  | cons r rs ih =>
    intro st h d
    have hnd' := parseRow_keys_nodup st r h
    rw [List.foldl_cons, ih (parseRow st r) hnd' d, dictGet_parseRow st r d h,
      List.foldl_cons, ih (parseRow [] r) (parseRow_keys_nodup [] r (by simp)) d,
      optOr_assoc]

/-! Lemmas on the subject filter and the event builder. -/

theorem extractSubjects_not_ignored {cells : List String} {q : Nat × String}
    (hq : q ∈ extractSubjects cells) : q.2 ∉ ignore_subjects := by
  simp only [extractSubjects, List.mem_filterMap] at hq
  obtain ⟨i, _, heq⟩ := hq
  split at heq
  · exact absurd heq (by simp)
  · split at heq
    · exact absurd heq (by simp)
    · split at heq
      · exact absurd heq (by simp)
      · rename_i hs
        simp only [Option.some.injEq] at heq
        subst heq
        exact hs

theorem parseRow_good (st : ScheduleTable) (cells : List String)
    (h : ∀ p ∈ st, p.2.subjects ≠ [] ∧ ∀ q ∈ p.2.subjects, q.2 ∉ ignore_subjects) :
    ∀ p ∈ parseRow st cells,
      p.2.subjects ≠ [] ∧ ∀ q ∈ p.2.subjects, q.2 ∉ ignore_subjects := by
  rcases parseRow_shape cells with hs | ⟨k, txt, hne, hs⟩
  · rw [hs]; exact h
  · rw [hs]
    intro p hp
    rcases mem_dictInsert hp with rfl | hp2
    · exact ⟨hne, fun q hq => extractSubjects_not_ignored hq⟩
    · exact h p hp2

theorem foldl_parseRow_good (rows : List (List String)) :
    ∀ st : ScheduleTable,
      (∀ p ∈ st, p.2.subjects ≠ [] ∧ ∀ q ∈ p.2.subjects, q.2 ∉ ignore_subjects) →
      ∀ p ∈ rows.foldl parseRow st,
        p.2.subjects ≠ [] ∧ ∀ q ∈ p.2.subjects, q.2 ∉ ignore_subjects := by
  induction rows with
  | nil => exact fun st h => h
  | cons r rs ih => exact fun st h => ih (parseRow st r) (parseRow_good st r h)

theorem mem_lessonEvent {date_obj : Date} {ts : List (Nat × (String × String))}
    {fp : Option Nat} {pl : List (Nat × Nat)} {cfg : ReminderConfig}
    {ps : Nat × String} {e : CalendarEvent}
    (he : e ∈ lessonEvent date_obj ts fp pl cfg ps) :
    ps.2 ∉ ignore_subjects ∧ ∃ times, dictGet ps.1 ts = some times ∧
      e = CalendarEvent.mk ps.2 date_obj (strptimeHM times.1) (strptimeHM times.2)
        ("Berufsschule - Period " ++ toString ps.1)
        (firstAlarmOf cfg fp ps ++ prevAlarmOf cfg ts pl (strptimeHM times.1) ps) := by
  unfold lessonEvent at he
  split at he
  · exact absurd he (List.not_mem_nil e)
  · rename_i hmem
    split at he
    · exact absurd he (List.not_mem_nil e)
    · rename_i times hget
      refine ⟨hmem, times, hget, ?_⟩
      simpa using he

theorem mem_buildDayEvents {date_obj : Date} {dd : DayData} {cfg : ReminderConfig}
    {e : CalendarEvent} (he : e ∈ buildDayEvents date_obj dd cfg) :
    ∃ ps ∈ dd.subjects,
      e ∈ lessonEvent date_obj (timeScheduleFor date_obj) (sortedPeriodsOf dd).head?
        ((sortedPeriodsOf dd).tail.zip (sortedPeriodsOf dd)) cfg ps := by
  rw [buildDayEvents, List.mem_flatMap] at he
  exact he

/-! Week-grouping lemmas for the Monday partition. -/

theorem mondayOrd_le (o : Nat) : mondayOrd o ≤ o := Nat.sub_le _ _

theorem lt_mondayOrd_add (o : Nat) : o < mondayOrd o + 7 := by
  unfold mondayOrd
  have h1 : (o - 1) % 7 < 7 := Nat.mod_lt _ (by omega)
  have h2 : (o - 1) % 7 ≤ o - 1 := Nat.mod_le _ _
  omega

theorem addToWeek_invA {acc : List (Nat × List Date)} {m : Nat} {d : Date}
    (h : ∀ g ∈ acc, ∀ x ∈ g.2, mondayOrd (toordinal x) = g.1)
    (hm : mondayOrd (toordinal d) = m) :
    ∀ g ∈ addToWeek acc m d, ∀ x ∈ g.2, mondayOrd (toordinal x) = g.1 := by
  intro g hg x hx
  unfold addToWeek at hg
  split at hg
  · rcases List.mem_map.mp hg with ⟨g0, hg0, rfl⟩
    by_cases hg0m : g0.1 = m
    · rw [if_pos hg0m] at hx ⊢
      rcases List.mem_append.mp hx with hx | hx
      · exact h g0 hg0 x hx
      · rcases List.mem_singleton.mp hx with rfl
        exact hm.trans hg0m.symm
    · rw [if_neg hg0m] at hx ⊢
      exact h g0 hg0 x hx
  · rcases List.mem_append.mp hg with hg | hg
    · exact h g hg x hx
    · rcases List.mem_singleton.mp hg with rfl
      rcases List.mem_singleton.mp hx with rfl
      exact hm

theorem addToWeek_map_fst (acc : List (Nat × List Date)) (m : Nat) (d : Date) :
    (addToWeek acc m d).map Prod.fst =
      if acc.any (fun g => g.1 = m) then acc.map Prod.fst
      else acc.map Prod.fst ++ [m] := by
  by_cases h : acc.any (fun g => g.1 = m)
  · rw [addToWeek, if_pos h, if_pos h, List.map_map]
    apply List.map_congr_left
    intro g _
    by_cases hgm : g.1 = m <;> simp [hgm]
  · rw [addToWeek, if_neg h, if_neg h, List.map_append]
    rfl

theorem addToWeek_keys_nodup (acc : List (Nat × List Date)) (m : Nat) (d : Date)
    (h : (acc.map Prod.fst).Nodup) : ((addToWeek acc m d).map Prod.fst).Nodup := by
  rw [addToWeek_map_fst]
  by_cases hany : acc.any (fun g => g.1 = m)
  · simpa [hany] using h
  · rw [if_neg (by simp [hany])]
    rw [List.nodup_append]
    refine ⟨h, List.nodup_singleton m, ?_⟩
    intro a ha hk
    rcases List.mem_singleton.mp hk with rfl
    rcases List.mem_map.mp ha with ⟨g, hg, hgm⟩
    have : acc.any (fun q => q.1 = a) = true :=
      List.any_eq_true.mpr ⟨g, hg, by simp [hgm]⟩
    simp [this] at hany

theorem addToWeek_mem_mono {acc : List (Nat × List Date)} {m : Nat} {d x : Date}
    (h : ∃ g ∈ acc, x ∈ g.2) : ∃ g ∈ addToWeek acc m d, x ∈ g.2 := by
  obtain ⟨g, hg, hx⟩ := h
  unfold addToWeek
  split
  · refine ⟨if g.1 = m then (g.1, g.2 ++ [d]) else g, List.mem_map_of_mem _ hg, ?_⟩
    by_cases hgm : g.1 = m
    · rw [if_pos hgm]
      exact List.mem_append_left _ hx
    · rw [if_neg hgm]
      exact hx
  · exact ⟨g, List.mem_append_left _ hg, hx⟩

theorem addToWeek_self_mem (acc : List (Nat × List Date)) (m : Nat) (d : Date) :
    ∃ g ∈ addToWeek acc m d, d ∈ g.2 := by
  unfold addToWeek
  split
  · rename_i hany
    rcases List.any_eq_true.mp hany with ⟨g0, hg0, hg0m⟩
    simp only [decide_eq_true_eq] at hg0m
    refine ⟨(g0.1, g0.2 ++ [d]), ?_, List.mem_append_right _ (List.mem_singleton.mpr rfl)⟩
    have : (if g0.1 = m then (g0.1, g0.2 ++ [d]) else g0) = (g0.1, g0.2 ++ [d]) :=
      if_pos hg0m
    exact this ▸ List.mem_map_of_mem _ hg0
  · exact ⟨(m, [d]), List.mem_append_right _ (List.mem_singleton.mpr rfl),
      List.mem_singleton.mpr rfl⟩

theorem foldl_week_invA (l : List Date) :
    ∀ acc : List (Nat × List Date),
      (∀ g ∈ acc, ∀ x ∈ g.2, mondayOrd (toordinal x) = g.1) →
      ∀ g ∈ l.foldl (fun acc d => addToWeek acc (mondayOrd (toordinal d)) d) acc,
        ∀ x ∈ g.2, mondayOrd (toordinal x) = g.1 := by
  induction l with
  | nil => exact fun acc h => h
  | cons a t ih => exact fun acc h => ih _ (addToWeek_invA h rfl)

theorem foldl_week_keys_nodup (l : List Date) :
    ∀ acc : List (Nat × List Date), (acc.map Prod.fst).Nodup →
      ((l.foldl (fun acc d => addToWeek acc (mondayOrd (toordinal d)) d) acc).map
        Prod.fst).Nodup := by
  induction l with
  | nil => exact fun acc h => h
  | cons a t ih => exact fun acc h => ih _ (addToWeek_keys_nodup _ _ _ h)

theorem foldl_week_mem (l : List Date) :
    ∀ (acc : List (Nat × List Date)) (x : Date),
      ((∃ g ∈ acc, x ∈ g.2) ∨ x ∈ l) →
      ∃ g ∈ l.foldl (fun acc d => addToWeek acc (mondayOrd (toordinal d)) d) acc,
        x ∈ g.2 := by
  induction l with
  | nil =>
    intro acc x h
    rcases h with h | h
    · exact h
    · exact absurd h (List.not_mem_nil x)
  | cons a t ih =>
    intro acc x h
    rcases h with h | h
    · exact ih _ x (Or.inl (addToWeek_mem_mono h))
    · rcases List.mem_cons.mp h with rfl | h
      · exact ih _ x (Or.inl (addToWeek_self_mem acc _ x))
      · exact ih _ x (Or.inr h)

/-! Sorted-period lemmas: head of the sort is the day's first period, and
the zip of tail against the sorted list is the previous-period map. -/

theorem sortedPeriods_head {periods : List Nat} {p : Nat}
    (hp : p ∈ periods) (hmin : ∀ x ∈ periods, p ≤ x) :
    (List.insertionSort (fun a b => a ≤ b) periods).head? = some p := by
  have hperm := List.perm_insertionSort (fun a b => a ≤ b) periods
  have hsorted := List.sorted_insertionSort (fun a b => a ≤ b) periods
  have hpsp : p ∈ List.insertionSort (fun a b => a ≤ b) periods := hperm.mem_iff.mpr hp
  cases hspc : List.insertionSort (fun a b => a ≤ b) periods with
  | nil =>
    rw [hspc] at hpsp
    exact absurd hpsp (List.not_mem_nil p)
  | cons h t =>
    rw [hspc] at hpsp hsorted hperm
    have hh : h ∈ periods := hperm.mem_iff.mp (List.mem_cons_self h t)
    have hph : p ≤ h := hmin h hh
    have hhp : h ≤ p := by
      rcases List.mem_cons.mp hpsp with rfl | hpt
      · exact le_refl p
      · exact List.rel_of_sorted_cons hsorted p hpt
    exact congrArg some (le_antisymm hhp hph)

theorem sortedPeriods_sorted_lt {periods : List Nat} (hnd : periods.Nodup) :
    (List.insertionSort (fun a b => a ≤ b) periods).Sorted (fun a b => a < b) :=
  List.Sorted.lt_of_le (List.sorted_insertionSort (fun a b => a ≤ b) periods)
    ((List.perm_insertionSort (fun a b => a ≤ b) periods).nodup_iff.mpr hnd)

theorem dictGet_zip_not_mem {p : Nat} :
    ∀ (l1 l2 : List Nat), p ∉ l1 → dictGet p (l1.zip l2) = none := by
  intro l1
  induction l1 with
  | nil => intro l2 _; rfl
  | cons a t ih =>
    intro l2 hp
    cases l2 with
    | nil => rfl
    | cons b u =>
      rw [List.zip_cons_cons, dictGet]
      rw [if_neg (fun hc : a = p => hp (hc ▸ List.mem_cons_self a t))]
      exact ih u (fun hc => hp (List.mem_cons_of_mem a hc))

theorem dictGet_zip_tail_eq :
    ∀ sp : List Nat, sp.Sorted (fun a b => a < b) →
      ∀ p q : Nat, q ∈ sp → p ∈ sp → q < p → (∀ x ∈ sp, x < p → x ≤ q) →
      dictGet p (sp.tail.zip sp) = some q := by
  intro sp
  induction sp with
  | nil =>
    intro _ p q hq
    exact absurd hq (List.not_mem_nil q)
  | cons a rest ih =>
    intro hsorted p q hq hp hqp hmax
    cases rest with
    | nil =>
      rcases List.mem_singleton.mp hp with rfl
      rcases List.mem_singleton.mp hq with rfl
      omega
    | cons b t =>
      have hab : a < b := List.rel_of_sorted_cons hsorted b (List.mem_cons_self b t)
      have hsorted2 : (b :: t).Sorted (fun a b => a < b) := hsorted.of_cons
      show dictGet p ((b, a) :: (t.zip (b :: t))) = some q
      rw [dictGet]
      by_cases hbp : b = p
      · rw [if_pos hbp]
        subst hbp
        rcases List.mem_cons.mp hq with rfl | hq2
        · rfl
        · rcases List.mem_cons.mp hq2 with rfl | hq3
          · exact absurd hqp (lt_irrefl _)
          · have := List.rel_of_sorted_cons hsorted2 q hq3
            omega
      · rw [if_neg hbp]
        have hp2 : p ∈ b :: t := by
          rcases List.mem_cons.mp hp with rfl | hp2
          · exfalso
            rcases List.mem_cons.mp hq with rfl | hq2
            · exact lt_irrefl _ hqp
            · have := List.rel_of_sorted_cons hsorted q hq2
              omega
          · exact hp2
        have hq2 : q ∈ b :: t := by
          rcases List.mem_cons.mp hq with rfl | hq2
          · exfalso
            have hbpl : b < p := by
              rcases List.mem_cons.mp hp2 with rfl | hp3
              · exact absurd rfl hbp
              · exact List.rel_of_sorted_cons hsorted2 p hp3
            have hba := hmax b (List.mem_cons_of_mem _ (List.mem_cons_self b t)) hbpl
            omega
          · exact hq2
        exact ih hsorted2 p q hq2 hp2 hqp
          (fun x hx hxp => hmax x (List.mem_cons_of_mem a hx) hxp)

/-! Alarm-list shapes. -/

theorem firstAlarmOf_pos {cfg : ReminderConfig} {fp : Option Nat} {ps : Nat × String}
    (h1 : cfg.before_first = true) (h2 : fp = some ps.1) :
    firstAlarmOf cfg fp ps =
      [Alarm.mk "DISPLAY" ("First lesson starting soon: " ++ ps.2) (-15)] := by
  unfold firstAlarmOf
  rw [if_pos ⟨h1, h2⟩]

theorem firstAlarmOf_neg {cfg : ReminderConfig} {fp : Option Nat} {ps : Nat × String}
    (h : ¬(cfg.before_first = true ∧ fp = some ps.1)) : firstAlarmOf cfg fp ps = [] := by
  unfold firstAlarmOf
  rw [if_neg h]

theorem firstAlarmOf_length (cfg : ReminderConfig) (fp : Option Nat) (ps : Nat × String) :
    (firstAlarmOf cfg fp ps).length ≤ 1 := by
  unfold firstAlarmOf
  split <;> simp

theorem prevAlarmOf_pos {cfg : ReminderConfig} {ts : List (Nat × (String × String))}
    {pl : List (Nat × Nat)} {start : Nat} {ps : Nat × String} {q : Nat}
    {qtimes : String × String}
    (h1 : cfg.end_previous = true) (h2 : dictGet ps.1 pl = some q)
    (h3 : dictGet q ts = some qtimes) :
    prevAlarmOf cfg ts pl start ps =
      [Alarm.mk "DISPLAY" ("Next lesson preparation: " ++ ps.2)
        (-((start : Int) - (strptimeHM qtimes.2 : Int)))] := by
  unfold prevAlarmOf
  rw [if_pos h1]
  simp only [h2, h3]

theorem prevAlarmOf_of_none {cfg : ReminderConfig} {ts : List (Nat × (String × String))}
    {pl : List (Nat × Nat)} {start : Nat} {ps : Nat × String}
    (h : dictGet ps.1 pl = none) : prevAlarmOf cfg ts pl start ps = [] := by
  unfold prevAlarmOf
  split
  · rw [h]
  · rfl

theorem prevAlarmOf_length (cfg : ReminderConfig) (ts : List (Nat × (String × String)))
    (pl : List (Nat × Nat)) (start : Nat) (ps : Nat × String) :
    (prevAlarmOf cfg ts pl start ps).length ≤ 1 := by
  unfold prevAlarmOf
  split
  · split
    · simp
    · split <;> simp
  · simp

theorem lessonEvent_mem_self {date_obj : Date} {ts : List (Nat × (String × String))}
    {fp : Option Nat} {pl : List (Nat × Nat)} {cfg : ReminderConfig} {ps : Nat × String}
    {times : String × String}
    (hni : ps.2 ∉ ignore_subjects) (hget : dictGet ps.1 ts = some times) :
    CalendarEvent.mk ps.2 date_obj (strptimeHM times.1) (strptimeHM times.2)
      ("Berufsschule - Period " ++ toString ps.1)
      (firstAlarmOf cfg fp ps ++ prevAlarmOf cfg ts pl (strptimeHM times.1) ps) ∈
      lessonEvent date_obj ts fp pl cfg ps := by
  unfold lessonEvent
  rw [if_neg hni]
  simp only [hget]
  exact List.mem_singleton.mpr rfl

/-! Claim theorems. -/

/-- C1: the claim says a Friday date with a subject only in period 7
produces zero CalendarEvents because period 7 is absent from the Friday
time-slot table. In the code, friday_times does contain period 7 (13:00 to
14:30), despite its own comment marking the slot as to be skipped, so one
event is produced: evaluating the event builder on Friday 2025-09-05 with
the single subject Mathe in period 7 yields exactly one event, not zero. -/
theorem C1_friday_period7_produces_event :
    weekdayOf ⟨2025, 9, 5⟩ = 4 ∧
    dictGet 7 friday_times = some ("13:00", "14:30") ∧
    buildDayEvents ⟨2025, 9, 5⟩ ⟨"Fr", [(7, "Mathe")]⟩ ⟨true, true⟩ =
      [CalendarEvent.mk "Mathe" ⟨2025, 9, 5⟩ 780 870 "Berufsschule - Period 7"
        [Alarm.mk "DISPLAY" "First lesson starting soon: Mathe" (-15)]] ∧
    (buildDayEvents ⟨2025, 9, 5⟩ ⟨"Fr", [(7, "Mathe")]⟩ ⟨true, true⟩).length ≠ 0 := by
  decide

/-- C2 as stated is false: loading a file with a row for 2025-09-02 and
then one with a row only for 2025-09-03 leaves both dates in the table,
while parsing the second file alone yields only 2025-09-03 — the entry of
the first load survives the re-load, so the result does not equal the
second parse alone. -/
theorem C2_counterexample :
    parse_schedule (some [["02. Sep", "Di", "Mathe", "Frei", "Frei", "Frei", "Frei",
        "Frei", "Frei", "Frei", "Frei", "Frei"]]) [] =
      Except.ok [(Date.mk 2025 9 2, DayData.mk "Di" [(1, "Mathe")])] ∧
    parse_schedule (some [["03. Sep", "Mi", "Deutsch", "Frei", "Frei", "Frei", "Frei",
        "Frei", "Frei", "Frei", "Frei", "Frei"]])
        [(Date.mk 2025 9 2, DayData.mk "Di" [(1, "Mathe")])] =
      Except.ok [(Date.mk 2025 9 2, DayData.mk "Di" [(1, "Mathe")]),
        (Date.mk 2025 9 3, DayData.mk "Mi" [(1, "Deutsch")])] ∧
    parse_schedule (some [["03. Sep", "Mi", "Deutsch", "Frei", "Frei", "Frei", "Frei",
        "Frei", "Frei", "Frei", "Frei", "Frei"]]) [] =
      Except.ok [(Date.mk 2025 9 3, DayData.mk "Mi" [(1, "Deutsch")])] ∧
    [(Date.mk 2025 9 2, DayData.mk "Di" [(1, "Mathe")]),
        (Date.mk 2025 9 3, DayData.mk "Mi" [(1, "Deutsch")])] ≠
      [(Date.mk 2025 9 3, DayData.mk "Mi" [(1, "Deutsch")])] ∧
    dictGet (Date.mk 2025 9 2)
        [(Date.mk 2025 9 2, DayData.mk "Di" [(1, "Mathe")]),
          (Date.mk 2025 9 3, DayData.mk "Mi" [(1, "Deutsch")])] =
      some (DayData.mk "Di" [(1, "Mathe")]) ∧
    dictGet (Date.mk 2025 9 2) [(Date.mk 2025 9 3, DayData.mk "Mi" [(1, "Deutsch")])] =
      none := by
  refine ⟨rfl, rfl, rfl, by decide, rfl, rfl⟩

/-- C2 amended: a re-load merges instead of replacing: after parsing file A
from the empty table and then file B on top of it, each date maps to file
B's entry when B defines one, and otherwise to the surviving entry of the
first load; the table equals the second parse alone only on dates B
defines. -/
theorem C2_reload_merges (rowsA rowsB : List (List String))
    (t1 t2 tB : ScheduleTable)
    (h1 : parse_schedule (some rowsA) [] = Except.ok t1)
    (h2 : parse_schedule (some rowsB) t1 = Except.ok t2)
    (hB : parse_schedule (some rowsB) [] = Except.ok tB) (d : Date) :
    dictGet d t2 = optOr (dictGet d tB) (dictGet d t1) := by
  simp only [parse_schedule, Except.ok.injEq] at h1 h2 hB
  subst h1
  subst h2
  subst hB
  exact dictGet_foldl_parseRow _ _ (foldl_parseRow_keys_nodup _ [] (by simp)) d

/-- Witness for C2 amended, at the counterexample's two files and the date
2025-09-02 defined only by the first file. -/
theorem C2_reload_merges_witness :
    dictGet (Date.mk 2025 9 2)
        [(Date.mk 2025 9 2, DayData.mk "Di" [(1, "Mathe")]),
          (Date.mk 2025 9 3, DayData.mk "Mi" [(1, "Deutsch")])] =
      optOr (dictGet (Date.mk 2025 9 2) [(Date.mk 2025 9 3, DayData.mk "Mi" [(1, "Deutsch")])])
        (dictGet (Date.mk 2025 9 2) [(Date.mk 2025 9 2, DayData.mk "Di" [(1, "Mathe")])]) :=
  C2_reload_merges
    [["02. Sep", "Di", "Mathe", "Frei", "Frei", "Frei", "Frei", "Frei", "Frei", "Frei",
      "Frei", "Frei"]]
    [["03. Sep", "Mi", "Deutsch", "Frei", "Frei", "Frei", "Frei", "Frei", "Frei", "Frei",
      "Frei", "Frei"]]
    [(Date.mk 2025 9 2, DayData.mk "Di" [(1, "Mathe")])]
    [(Date.mk 2025 9 2, DayData.mk "Di" [(1, "Mathe")]),
      (Date.mk 2025 9 3, DayData.mk "Mi" [(1, "Deutsch")])]
    [(Date.mk 2025 9 3, DayData.mk "Mi" [(1, "Deutsch")])] rfl rfl rfl (Date.mk 2025 9 2)

/-- C8: parsing fails with the no-table error exactly when the soup has no
table; with a table present the parse always succeeds, and a row failing
the data-row test contributes nothing: dropping it leaves the parse result
unchanged. -/
theorem C8_no_table_error_iff :
    (∀ st, parse_schedule none st = Except.error "No table found in HTML file") ∧
    (∀ rows st, ∃ t, parse_schedule (some rows) st = Except.ok t) ∧
    (∀ rows row st, isDataRow row = false →
      parse_schedule (some (row :: rows)) st = parse_schedule (some rows) st) := by
  refine ⟨fun st => rfl, fun rows st => ⟨_, rfl⟩, fun rows row st h => ?_⟩
  simp [parse_schedule, List.filter_cons, h]

/-- Witness for C8: a one-cell row is not a data row and is skipped. -/
theorem C8_no_table_error_iff_witness :
    parse_schedule (some [["x"]]) [] = parse_schedule (some []) [] :=
  C8_no_table_error_iff.2.2 [] ["x"] [] (by decide)

/-- C9: export with no schedule loaded fails with the no-schedule error,
export with zero weeks selected fails with the no-weeks error, and in
either case no event list is produced (the code returns before the save
dialog, so no file is written). -/
theorem C9_export_guards (sd : ScheduleTable) (weeks : List Nat) (cfg : ReminderConfig) :
    (sd = [] → generate_ics sd weeks cfg = Except.error "No schedule data loaded!") ∧
    (sd ≠ [] → weeks = [] → generate_ics sd weeks cfg = Except.error "No weeks selected!") ∧
    ((sd = [] ∨ weeks = []) → ∀ evs, generate_ics sd weeks cfg ≠ Except.ok evs) := by
  refine ⟨fun h => by subst h; rfl, fun hsd hw => ?_, fun h evs => ?_⟩
  · subst hw
    cases sd with
    | nil => exact absurd rfl hsd
    | cons a t => simp [generate_ics]
  · rcases h with h | h
    · subst h; simp [generate_ics]
    · subst h
      cases sd with
      | nil => simp [generate_ics]
      | cons a t => simp [generate_ics]

/-- C3: with both reminders on, the event of the day's smallest present
period carries the alarm triggering 15 minutes before its start; every
other period with a table entry whose immediately preceding present period
also has a table entry carries an alarm whose trigger offset is the minute
gap from the previous period's end to this period's start, so the alarm
instant is the previous lesson's end (offset 0 when back-to-back); and in
the concrete [1,3,6] weekday, period 3's alarm instant equals period 1's
end time 09:30. -/
theorem C3_alarm_timing :
    (∀ (date_obj : Date) (dd : DayData) (p : Nat) (s : String) (times : String × String),
      (dd.subjects.map Prod.fst).Nodup →
      (p, s) ∈ dd.subjects →
      (∀ x ∈ dd.subjects.map Prod.fst, p ≤ x) →
      s ∉ ignore_subjects →
      dictGet p (timeScheduleFor date_obj) = some times →
      ∃ e ∈ buildDayEvents date_obj dd ⟨true, true⟩,
        e.summary = s ∧ e.dtstart = strptimeHM times.1 ∧
        Alarm.mk "DISPLAY" ("First lesson starting soon: " ++ s) (-15) ∈ e.alarms) ∧
    (∀ (date_obj : Date) (dd : DayData) (p q : Nat) (s : String)
        (ptimes qtimes : String × String),
      (dd.subjects.map Prod.fst).Nodup →
      (p, s) ∈ dd.subjects →
      s ∉ ignore_subjects →
      q ∈ dd.subjects.map Prod.fst → q < p →
      (∀ x ∈ dd.subjects.map Prod.fst, x < p → x ≤ q) →
      dictGet p (timeScheduleFor date_obj) = some ptimes →
      dictGet q (timeScheduleFor date_obj) = some qtimes →
      ∃ e ∈ buildDayEvents date_obj dd ⟨true, true⟩,
        e.summary = s ∧ e.dtstart = strptimeHM ptimes.1 ∧
        ∃ a ∈ e.alarms,
          a.trigger = -((strptimeHM ptimes.1 : Int) - (strptimeHM qtimes.2 : Int)) ∧
          (e.dtstart : Int) + a.trigger = (strptimeHM qtimes.2 : Int)) ∧
    (∃ e ∈ buildDayEvents (Date.mk 2025 9 2)
        (DayData.mk "Di" [(1, "Ma"), (3, "De"), (6, "En")]) ⟨true, true⟩,
      e.summary = "De" ∧ dictGet 1 weekday_times = some ("08:00", "09:30") ∧
      ∃ a ∈ e.alarms,
        (e.dtstart : Int) + a.trigger = (strptimeHM "09:30" : Int)) := by
  refine ⟨?_, ?_, ?_⟩
  · intro date_obj dd p s times hnd hmem hmin hni hget
    have hfp : (sortedPeriodsOf dd).head? = some p := by
      unfold sortedPeriodsOf
      exact sortedPeriods_head (List.mem_map_of_mem Prod.fst hmem) hmin
    refine ⟨CalendarEvent.mk s date_obj (strptimeHM times.1) (strptimeHM times.2)
      ("Berufsschule - Period " ++ toString p)
      (firstAlarmOf ⟨true, true⟩ (sortedPeriodsOf dd).head? (p, s) ++
        prevAlarmOf ⟨true, true⟩ (timeScheduleFor date_obj)
          ((sortedPeriodsOf dd).tail.zip (sortedPeriodsOf dd)) (strptimeHM times.1)
          (p, s)),
      ?_, rfl, rfl, ?_⟩
    · unfold buildDayEvents
      exact List.mem_flatMap.mpr ⟨(p, s), hmem, lessonEvent_mem_self hni hget⟩
    · show Alarm.mk "DISPLAY" ("First lesson starting soon: " ++ s) (-15) ∈
        firstAlarmOf ⟨true, true⟩ (sortedPeriodsOf dd).head? (p, s) ++
          prevAlarmOf ⟨true, true⟩ (timeScheduleFor date_obj)
            ((sortedPeriodsOf dd).tail.zip (sortedPeriodsOf dd)) (strptimeHM times.1)
            (p, s)
      rw [firstAlarmOf_pos rfl hfp]
      exact List.mem_append_left _ (List.mem_singleton.mpr rfl)
  · intro date_obj dd p q s ptimes qtimes hnd hmem hni hqmem hqp hqmax hpget hqget
    have hsortlt : (sortedPeriodsOf dd).Sorted (fun a b => a < b) := by
      unfold sortedPeriodsOf
      exact sortedPeriods_sorted_lt hnd
    have hperm := List.perm_insertionSort (fun a b => a ≤ b) (dd.subjects.map Prod.fst)
    have hpsp : p ∈ sortedPeriodsOf dd :=
      hperm.mem_iff.mpr (List.mem_map_of_mem Prod.fst hmem)
    have hqsp : q ∈ sortedPeriodsOf dd := hperm.mem_iff.mpr hqmem
    have hmax2 : ∀ x ∈ sortedPeriodsOf dd, x < p → x ≤ q :=
      fun x hx => hqmax x (hperm.mem_iff.mp hx)
    have hzip : dictGet p ((sortedPeriodsOf dd).tail.zip (sortedPeriodsOf dd)) = some q :=
      dictGet_zip_tail_eq _ hsortlt p q hqsp hpsp hqp hmax2
    refine ⟨CalendarEvent.mk s date_obj (strptimeHM ptimes.1) (strptimeHM ptimes.2)
      ("Berufsschule - Period " ++ toString p)
      (firstAlarmOf ⟨true, true⟩ (sortedPeriodsOf dd).head? (p, s) ++
        prevAlarmOf ⟨true, true⟩ (timeScheduleFor date_obj)
          ((sortedPeriodsOf dd).tail.zip (sortedPeriodsOf dd)) (strptimeHM ptimes.1)
          (p, s)),
      ?_, rfl, rfl, ?_⟩
    · unfold buildDayEvents
      exact List.mem_flatMap.mpr ⟨(p, s), hmem, lessonEvent_mem_self hni hpget⟩
    · refine ⟨Alarm.mk "DISPLAY" ("Next lesson preparation: " ++ s)
        (-((strptimeHM ptimes.1 : Int) - (strptimeHM qtimes.2 : Int))), ?_, rfl, ?_⟩
      · show Alarm.mk "DISPLAY" ("Next lesson preparation: " ++ s)
            (-((strptimeHM ptimes.1 : Int) - (strptimeHM qtimes.2 : Int))) ∈
          firstAlarmOf ⟨true, true⟩ (sortedPeriodsOf dd).head? (p, s) ++
            prevAlarmOf ⟨true, true⟩ (timeScheduleFor date_obj)
              ((sortedPeriodsOf dd).tail.zip (sortedPeriodsOf dd)) (strptimeHM ptimes.1)
              (p, s)
        rw [prevAlarmOf_pos rfl hzip hqget]
        exact List.mem_append_right _ (List.mem_singleton.mpr rfl)
      · show (strptimeHM ptimes.1 : Int) +
            -((strptimeHM ptimes.1 : Int) - (strptimeHM qtimes.2 : Int)) =
            (strptimeHM qtimes.2 : Int)
        omega
  · exact ⟨CalendarEvent.mk "De" (Date.mk 2025 9 2) 585 675 "Berufsschule - Period 3"
      [Alarm.mk "DISPLAY" "Next lesson preparation: De" (-15)], by decide, by decide,
      by decide,
      ⟨Alarm.mk "DISPLAY" "Next lesson preparation: De" (-15), by decide, by decide⟩⟩

/-- Witness for C3: both general parts at the concrete [1,3,6] Tuesday:
period 1 gets the minus-15 first-lesson alarm, period 3 gets the
previous-lesson alarm firing at period 1's end. -/
theorem C3_alarm_timing_witness :
    (∃ e ∈ buildDayEvents (Date.mk 2025 9 2)
        (DayData.mk "Di" [(1, "Ma"), (3, "De"), (6, "En")]) ⟨true, true⟩,
      e.summary = "Ma" ∧ e.dtstart = strptimeHM "08:00" ∧
      Alarm.mk "DISPLAY" ("First lesson starting soon: " ++ "Ma") (-15) ∈ e.alarms) ∧
    (∃ e ∈ buildDayEvents (Date.mk 2025 9 2)
        (DayData.mk "Di" [(1, "Ma"), (3, "De"), (6, "En")]) ⟨true, true⟩,
      e.summary = "De" ∧ e.dtstart = strptimeHM "09:45" ∧
      ∃ a ∈ e.alarms,
        a.trigger = -((strptimeHM "09:45" : Int) - (strptimeHM "09:30" : Int)) ∧
        (e.dtstart : Int) + a.trigger = (strptimeHM "09:30" : Int)) :=
  ⟨C3_alarm_timing.1 (Date.mk 2025 9 2)
      (DayData.mk "Di" [(1, "Ma"), (3, "De"), (6, "En")]) 1 "Ma" ("08:00", "09:30")
      (by decide) (by decide) (by decide) (by decide) (by decide),
   C3_alarm_timing.2.1 (Date.mk 2025 9 2)
      (DayData.mk "Di" [(1, "Ma"), (3, "De"), (6, "En")]) 3 1 "De"
      ("09:45", "11:15") ("08:00", "09:30")
      (by decide) (by decide) (by decide) (by decide) (by decide) (by decide)
      (by decide) (by decide)⟩

/-- C4 as stated is false: the row dated 02. Sep with Mathe in column 2 and
ignored subjects elsewhere parses to the single DaySchedule 2025-09-02 with
period 1 Mathe, and exporting that day alone with both reminders on yields
exactly one VEVENT — but that event carries one VALARM (the minus-15-minute
one), not two: the first period has no previous period, so no
previous-lesson alarm is attached at all. -/
theorem C4_counterexample :
    parse_schedule (some [["02. Sep", "Di", "Mathe\n", "#NV", "Frei", "Frei", "Betrieb",
        "Feiertag", "Frei", "Frei", "Frei", " "]]) [] =
      Except.ok [(Date.mk 2025 9 2, DayData.mk "Di" [(1, "Mathe")])] ∧
    generate_ics [(Date.mk 2025 9 2, DayData.mk "Di" [(1, "Mathe")])]
        [mondayOrd (toordinal (Date.mk 2025 9 2))] ⟨true, true⟩ =
      Except.ok [CalendarEvent.mk "Mathe" (Date.mk 2025 9 2) 480 570
        "Berufsschule - Period 1"
        [Alarm.mk "DISPLAY" "First lesson starting soon: Mathe" (-15)]] ∧
    (CalendarEvent.mk "Mathe" (Date.mk 2025 9 2) 480 570 "Berufsschule - Period 1"
        [Alarm.mk "DISPLAY" "First lesson starting soon: Mathe" (-15)]).alarms.length ≠
      2 := by
  exact ⟨rfl, rfl, by decide⟩

/-- C4 amended: the row parses to the single DaySchedule 2025-09-02 with
period 1 Mathe, and exporting that day alone with both reminders on yields
exactly one VEVENT carrying exactly one VALARM, the display alarm with
trigger minus 15 minutes; no previous-lesson alarm exists because the first
period has no entry in the previous-lessons map. -/
theorem C4_scenario_a :
    parse_schedule (some [["02. Sep", "Di", "Mathe\n", "#NV", "Frei", "Frei", "Betrieb",
        "Feiertag", "Frei", "Frei", "Frei", " "]]) [] =
      Except.ok [(Date.mk 2025 9 2, DayData.mk "Di" [(1, "Mathe")])] ∧
    generate_ics [(Date.mk 2025 9 2, DayData.mk "Di" [(1, "Mathe")])]
        [mondayOrd (toordinal (Date.mk 2025 9 2))] ⟨true, true⟩ =
      Except.ok [CalendarEvent.mk "Mathe" (Date.mk 2025 9 2) 480 570
        "Berufsschule - Period 1"
        [Alarm.mk "DISPLAY" "First lesson starting soon: Mathe" (-15)]] ∧
    (CalendarEvent.mk "Mathe" (Date.mk 2025 9 2) 480 570 "Berufsschule - Period 1"
        [Alarm.mk "DISPLAY" "First lesson starting soon: Mathe" (-15)]).alarms.length =
      1 ∧
    (CalendarEvent.mk "Mathe" (Date.mk 2025 9 2) 480 570 "Berufsschule - Period 1"
        [Alarm.mk "DISPLAY" "First lesson starting soon: Mathe" (-15)]).alarms.map
        Alarm.trigger = [-15] := by
  exact ⟨rfl, rfl, by decide, by decide⟩

/-- C5: the fixed German month table maps jan..dez to 1..12 and nothing
else; the lookup key is the lowercased first three characters of the
matched month word (case-insensitive, longer words truncated); an unknown
abbreviation defaults to month 1, so the month is always in 1..12; the year
is 2025 exactly when the month is at least 8 and 2026 otherwise; and a row
whose day/month pair is not a valid calendar date is skipped, leaving the
table unchanged. -/
theorem C5_month_year_rules :
    (dictGet "jan" month_map = some 1 ∧ dictGet "feb" month_map = some 2 ∧
     dictGet "mär" month_map = some 3 ∧ dictGet "apr" month_map = some 4 ∧
     dictGet "mai" month_map = some 5 ∧ dictGet "jun" month_map = some 6 ∧
     dictGet "jul" month_map = some 7 ∧ dictGet "aug" month_map = some 8 ∧
     dictGet "sep" month_map = some 9 ∧ dictGet "okt" month_map = some 10 ∧
     dictGet "nov" month_map = some 11 ∧ dictGet "dez" month_map = some 12 ∧
     month_map.length = 12) ∧
    (monthNumOf "SEP".data = 9 ∧ monthNumOf "September".data = 9 ∧
     monthNumOf "Xyz".data = 1) ∧
    (∀ word : List Char, 1 ≤ monthNumOf word ∧ monthNumOf word ≤ 12) ∧
    (∀ word : List Char,
      dictGet ((word.map pyLower).take 3).asString month_map = none →
      monthNumOf word = 1) ∧
    (∀ m : Nat, (yearOf m = 2025 ↔ 8 ≤ m) ∧ (yearOf m = 2026 ↔ m < 8)) ∧
    (∀ (st : ScheduleTable) (cells : List String) (day_num : Nat) (word : List Char),
      matchDateText (pyStrip ((cells.head?).getD "")).data = some (day_num, word) →
      isValidDate (yearOf (monthNumOf word)) (monthNumOf word) day_num = false →
      parseRow st cells = st) := by
  refine ⟨by decide, by decide, ?_, ?_, ?_, ?_⟩
  · intro word
    unfold monthNumOf
    cases h : dictGet ((word.map pyLower).take 3).asString month_map with
    | none => simp
    | some v =>
      have hv : v ∈ month_map.map Prod.snd := List.mem_map_of_mem Prod.snd (dictGet_mem h)
      simp only [month_map, List.map_cons, List.map_nil, List.mem_cons,
        List.not_mem_nil, or_false] at hv
      simp only [Option.getD_some]
      omega
  · intro word h
    unfold monthNumOf
    rw [h]
    rfl
  · intro m
    by_cases h : 8 ≤ m
    · rw [yearOf, if_pos h]
      exact ⟨⟨fun _ => h, fun _ => rfl⟩,
        ⟨fun hc => absurd hc (by decide), fun hm => absurd h (by omega)⟩⟩
    · rw [yearOf, if_neg h]
      exact ⟨⟨fun hc => absurd hc (by decide), fun hm => absurd hm h⟩,
        ⟨fun _ => by omega, fun _ => rfl⟩⟩
  · intro st cells day_num word hmatch hvalid
    by_cases hlen : cells.length < 12
    · simp [parseRow, hlen]
    · have hpd : parseRowDate (pyStrip ((cells.head?).getD "")) = none := by
        unfold parseRowDate
        rw [hmatch]
        simp [hvalid]
      simp [parseRow, hlen, hpd]

/-- Witness for C5: the row dated April 31 (an invalid calendar date, with
month apr resolving to 4 and year 2026) is skipped. -/
theorem C5_month_year_rules_witness :
    parseRow [] ["31. Apr", "Di", "Mathe", "Frei", "Frei", "Frei", "Frei", "Frei",
      "Frei", "Frei", "Frei", "Frei"] = [] :=
  C5_month_year_rules.2.2.2.2.2 []
    ["31. Apr", "Di", "Mathe", "Frei", "Frei", "Frei", "Frei", "Frei", "Frei", "Frei",
      "Frei", "Frei"] 31 ['A', 'p', 'r'] (by decide) (by decide)

/-- C6: every subject stored in a parsed DaySchedule is non-empty and
outside the ignored-subject set, a day with zero surviving periods gets no
DaySchedule at all (given the table the parse starts from already satisfies
the invariant, as the initial empty table does), and the event builder
never produces a CalendarEvent whose summary is an ignored label, for any
day data whatsoever. -/
theorem C6_ignore_set_complete :
    (∀ (soup : Soup) (st t : ScheduleTable),
      (∀ p ∈ st, p.2.subjects ≠ [] ∧ ∀ q ∈ p.2.subjects, q.2 ∉ ignore_subjects) →
      parse_schedule soup st = Except.ok t →
      ∀ p ∈ t, p.2.subjects ≠ [] ∧
        ∀ q ∈ p.2.subjects, q.2 ∉ ignore_subjects ∧ q.2 ≠ "") ∧
    (∀ (date_obj : Date) (dd : DayData) (cfg : ReminderConfig) (e : CalendarEvent),
      e ∈ buildDayEvents date_obj dd cfg → e.summary ∉ ignore_subjects) := by
  constructor
  · intro soup st t hst hok
    cases soup with
    | none => exact absurd hok (by simp [parse_schedule])
    | some rows =>
      simp only [parse_schedule, Except.ok.injEq] at hok
      subst hok
      intro p hp
      have hgood := foldl_parseRow_good (rows.filter isDataRow) st hst p hp
      refine ⟨hgood.1, fun q hq => ?_⟩
      have hni := hgood.2 q hq
      refine ⟨hni, fun hempty => ?_⟩
      exact hni (hempty ▸ (by decide : ("" : String) ∈ ignore_subjects))
  · intro date_obj dd cfg e he
    obtain ⟨ps, _, hle⟩ := mem_buildDayEvents he
    obtain ⟨hni, times, _, rfl⟩ := mem_lessonEvent hle
    exact hni

/-- Witness for C6: the event built from the 2025-09-02 Mathe day has a
non-ignored summary. -/
theorem C6_ignore_set_complete_witness :
    (CalendarEvent.mk "Mathe" (Date.mk 2025 9 2) 480 570 "Berufsschule - Period 1"
      [Alarm.mk "DISPLAY" "First lesson starting soon: Mathe" (-15)]).summary ∉
      ignore_subjects :=
  C6_ignore_set_complete.2 (Date.mk 2025 9 2) (DayData.mk "Di" [(1, "Mathe")])
    ⟨true, true⟩ _ (by decide)

/-- C7: every date of the schedule lies in exactly one week bucket of the
Monday grouping, namely the bucket keyed by the date's ordinal minus its
weekday index, and that Monday key satisfies key ≤ date < key + 7 days. -/
theorem C7_week_partition (dates : List Date) (d : Date) (hd : d ∈ dates) :
    (∃! g, g ∈ groupByMonday dates ∧ d ∈ g.2) ∧
    (∀ g ∈ groupByMonday dates, d ∈ g.2 →
      g.1 = toordinal d - weekdayOf d ∧ g.1 ≤ toordinal d ∧ toordinal d < g.1 + 7) := by
  have hgb : groupByMonday dates =
      (List.insertionSort (fun a b => toordinal a ≤ toordinal b) dates).foldl
        (fun acc d => addToWeek acc (mondayOrd (toordinal d)) d) [] := rfl
  have hinvA := foldl_week_invA
    (List.insertionSort (fun a b => toordinal a ≤ toordinal b) dates) []
    (by intro g hg; exact absurd hg (List.not_mem_nil g))
  have hnd := foldl_week_keys_nodup
    (List.insertionSort (fun a b => toordinal a ≤ toordinal b) dates) [] (by simp)
  have hdL : d ∈ List.insertionSort (fun a b => toordinal a ≤ toordinal b) dates :=
    (List.perm_insertionSort _ dates).mem_iff.mpr hd
  have hex := foldl_week_mem
    (List.insertionSort (fun a b => toordinal a ≤ toordinal b) dates) [] d (Or.inr hdL)
  rw [← hgb] at hinvA hnd hex
  constructor
  · obtain ⟨g, hg, hdg⟩ := hex
    refine ⟨g, ⟨hg, hdg⟩, ?_⟩
    rintro g2 ⟨hg2, hdg2⟩
    have hfst : g2.1 = g.1 :=
      (hinvA g2 hg2 d hdg2).symm.trans (hinvA g hg d hdg)
    exact List.inj_on_of_nodup_map hnd hg2 hg hfst
  · intro g hg hdg
    have h1 : mondayOrd (toordinal d) = g.1 := hinvA g hg d hdg
    refine ⟨?_, ?_, ?_⟩
    · rw [← h1]; rfl
    · rw [← h1]; exact mondayOrd_le _
    · rw [← h1]; exact lt_mondayOrd_add _

/-- Witness for C7: the schedule holding only 2025-09-02 has exactly one
bucket containing that date, keyed by the Monday ordinal 739495. -/
theorem C7_week_partition_witness :
    (∃! g, g ∈ groupByMonday [Date.mk 2025 9 2] ∧ Date.mk 2025 9 2 ∈ g.2) ∧
    (739495 : Nat) = toordinal (Date.mk 2025 9 2) - weekdayOf (Date.mk 2025 9 2) ∧
    (739495 : Nat) ≤ toordinal (Date.mk 2025 9 2) ∧
    toordinal (Date.mk 2025 9 2) < 739495 + 7 :=
  ⟨(C7_week_partition [Date.mk 2025 9 2] (Date.mk 2025 9 2) (by decide)).1,
   (C7_week_partition [Date.mk 2025 9 2] (Date.mk 2025 9 2) (by decide)).2
     (739495, [Date.mk 2025 9 2]) (by decide) (by decide)⟩

/-- C10: the two alarm kinds are mutually exclusive — the before-first
alarm attaches only to the day's first period, which has no entry in the
previous-lessons map (it is the sorted head, absent from the zip of the
tail), so every produced event carries at most one alarm, whatever the
reminder configuration. -/
theorem C10_alarm_exclusive (date_obj : Date) (dd : DayData) (cfg : ReminderConfig)
    (e : CalendarEvent) (hnd : (dd.subjects.map Prod.fst).Nodup)
    (he : e ∈ buildDayEvents date_obj dd cfg) : e.alarms.length ≤ 1 := by
  obtain ⟨ps, hps, hle⟩ := mem_buildDayEvents he
  obtain ⟨hni, times, hget, rfl⟩ := mem_lessonEvent hle
  show (firstAlarmOf cfg (sortedPeriodsOf dd).head? ps ++
    prevAlarmOf cfg (timeScheduleFor date_obj)
      ((sortedPeriodsOf dd).tail.zip (sortedPeriodsOf dd))
      (strptimeHM times.1) ps).length ≤ 1
  rw [List.length_append]
  by_cases hfp : cfg.before_first = true ∧ (sortedPeriodsOf dd).head? = some ps.1
  · have hspnd : (sortedPeriodsOf dd).Nodup :=
      (List.perm_insertionSort (fun a b => a ≤ b) (dd.subjects.map Prod.fst)).nodup_iff.mpr
        hnd
    have hnotmem : ps.1 ∉ (sortedPeriodsOf dd).tail := by
      cases hsp : sortedPeriodsOf dd with
      | nil => exact List.not_mem_nil _
      | cons h t =>
        rw [hsp] at hfp hspnd
        have hh : h = ps.1 := Option.some.inj hfp.2
        rw [← hh]
        exact (List.nodup_cons.mp hspnd).1
    have hprev : prevAlarmOf cfg (timeScheduleFor date_obj)
        ((sortedPeriodsOf dd).tail.zip (sortedPeriodsOf dd)) (strptimeHM times.1) ps =
        [] :=
      prevAlarmOf_of_none (dictGet_zip_not_mem _ _ hnotmem)
    rw [hprev, List.length_nil]
    have h1 := firstAlarmOf_length cfg (sortedPeriodsOf dd).head? ps
    omega
  · rw [firstAlarmOf_neg hfp, List.length_nil]
    have h2 := prevAlarmOf_length cfg (timeScheduleFor date_obj)
      ((sortedPeriodsOf dd).tail.zip (sortedPeriodsOf dd)) (strptimeHM times.1) ps
    omega

/-- Witness for C10: the period-3 event of the [1,3,6] day carries exactly
one alarm. -/
theorem C10_alarm_exclusive_witness :
    (CalendarEvent.mk "De" (Date.mk 2025 9 2) 585 675 "Berufsschule - Period 3"
      [Alarm.mk "DISPLAY" "Next lesson preparation: De" (-15)]).alarms.length ≤ 1 :=
  C10_alarm_exclusive (Date.mk 2025 9 2)
    (DayData.mk "Di" [(1, "Ma"), (3, "De"), (6, "En")]) ⟨true, true⟩ _
    (by decide) (by decide)

/-- Witness for C9: both guards at concrete inputs. -/
theorem C9_export_guards_witness :
    generate_ics [] [739495] ⟨true, true⟩ = Except.error "No schedule data loaded!" ∧
    generate_ics [(⟨2025, 9, 2⟩, ⟨"Di", [(1, "Mathe")]⟩)] [] ⟨true, true⟩ =
      Except.error "No weeks selected!" :=
  ⟨(C9_export_guards [] [739495] ⟨true, true⟩).1 rfl,
   (C9_export_guards [(⟨2025, 9, 2⟩, ⟨"Di", [(1, "Mathe")]⟩)] [] ⟨true, true⟩).2.1
     (by decide) rfl⟩

end Plan2ics
